import Mathlib

/-!
Shallow embedding of `allennlp/modules/similarity_functions/linear.py`
(`LinearSimilarity`): the combination-expression evaluator and its paired
dimension checker.

Tensors are modelled as 1-D vectors of rationals (`List ℚ`); the trailing
axis of such a tensor is the list itself, so its trailing-axis length is
the list length.  Elementwise torch operations on equal-length vectors are
`List.zipWith`; `torch.cat(..., dim=-1)` is list append.  A Python
`ConfigurationError` is modelled as `Except.error` carrying the message
string built exactly as the source builds it.
-/

namespace LinearSim

/-- 1-D tensors over ℚ.  The feature (trailing) axis is the list itself. -/
abbrev Tensor := List ℚ

/-- `true` exactly when the computation raised (a `ConfigurationError`). -/
def isErr {α : Type} : Except String α → Bool
  | Except.error _ => true
  | Except.ok _ => false

/-- Embedding of `LinearSimilarity._get_combination`, working on the list of
characters of the combination token.  Mirrors the source line by line:
the token `x` returns the first tensor, `y` the second; otherwise a token of
length ≠ 3 raises; otherwise the two operand characters are resolved
recursively and the middle operator character is dispatched, an unknown
operator raising `Invalid operation`. -/
def _get_combination (cs : List Char) (tensor_1 tensor_2 : Tensor) :
    Except String Tensor :=
  if cs = ['x'] then Except.ok tensor_1
  else if cs = ['y'] then Except.ok tensor_2
  else if h3 : cs.length = 3 then do
    let first_tensor ← _get_combination [cs.get ⟨0, by omega⟩] tensor_1 tensor_2
    let second_tensor ← _get_combination [cs.get ⟨2, by omega⟩] tensor_1 tensor_2
    let operation := cs.get ⟨1, by omega⟩
    if operation = '*' then
      Except.ok (List.zipWith (fun a b => a * b) first_tensor second_tensor)
    else if operation = '/' then
      Except.ok (List.zipWith (fun a b => a / b) first_tensor second_tensor)
    else if operation = '+' then
      Except.ok (List.zipWith (fun a b => a + b) first_tensor second_tensor)
    else if operation = '-' then
      Except.ok (List.zipWith (fun a b => a - b) first_tensor second_tensor)
    else Except.error ("Invalid operation: " ++ String.mk [operation])
  else Except.error ("Invalid combination: " ++ String.mk cs)
termination_by cs.length
decreasing_by all_goals simp; omega

/-- Embedding of `LinearSimilarity._get_combination_dim`, on the character
list of the token.  Note that, exactly as in the source, the operator
character is read but never validated here: only the equality of the two
operand dimensions is checked. -/
def _get_combination_dim (cs : List Char) (tensor_1_dim tensor_2_dim : Nat) :
    Except String Nat :=
  if cs = ['x'] then Except.ok tensor_1_dim
  else if cs = ['y'] then Except.ok tensor_2_dim
  else if h3 : cs.length = 3 then do
    let first_tensor_dim ← _get_combination_dim [cs.get ⟨0, by omega⟩] tensor_1_dim tensor_2_dim
    let second_tensor_dim ← _get_combination_dim [cs.get ⟨2, by omega⟩] tensor_1_dim tensor_2_dim
    let operation := cs.get ⟨1, by omega⟩
    if first_tensor_dim ≠ second_tensor_dim then
      Except.error ("Tensor dims must match for operation \"" ++ String.mk [operation] ++ "\"")
    else Except.ok first_tensor_dim
  else Except.error ("Invalid combination: " ++ String.mk cs)
termination_by cs.length
decreasing_by all_goals simp; omega

/-- Model of Python `str.split(',')` on the character list of the string:
`""` splits to `[""]`, separators at the ends or adjacent produce empty
segments, exactly as in Python. -/
def split_commas : List Char → List (List Char)
  | [] => [[]]
  | c :: rest =>
    if c = ',' then [] :: split_commas rest
    else
      match split_commas rest with
      | [] => [[c]]
      | t :: ts => (c :: t) :: ts

/-- Reduction of monadic bind on a successful `Except` computation. -/
theorem ok_bind {α β : Type} (a : α) (f : α → Except String β) :
    (Except.ok a >>= f : Except String β) = f a := rfl

/-- Reduction of monadic bind on a failed `Except` computation. -/
theorem error_bind {α β : Type} (e : String) (f : α → Except String β) :
    (Except.error e >>= f : Except String β) = Except.error e := rfl

/-- Embedding of `LinearSimilarity._combine_tensors`: evaluate the first
combination token, then loop over the remaining tokens concatenating each
evaluated tensor on the trailing axis (`torch.cat([a, b], dim=-1)` on 1-D
tensors is list append).  On an empty token list Python would raise
`IndexError` at the subscript `self._combinations[0]`; such a list can
never come out of the constructor, whose comma split always returns at
least one token. -/
def _combine_tensors (combinations : List (List Char))
    (tensor_1 tensor_2 : Tensor) : Except String Tensor :=
  match combinations with
  | [] => Except.error "IndexError: list index out of range"
  | first :: rest => do
    let combined_tensor ← _get_combination first tensor_1 tensor_2
    rest.foldlM (fun combined_tensor combination => do
      let to_concatenate ← _get_combination combination tensor_1 tensor_2
      pure (combined_tensor ++ to_concatenate)) combined_tensor

/-- Embedding of `LinearSimilarity._get_combined_dim`: the per-token
dimensions in list order, summed.  The Python list comprehension
propagates the first `ConfigurationError`, which `List.mapM` mirrors. -/
def _get_combined_dim (combinations : List (List Char))
    (tensor_1_dim tensor_2_dim : Nat) : Except String Nat := do
  let combination_dims ← combinations.mapM
    (fun combination => _get_combination_dim combination tensor_1_dim tensor_2_dim)
  pure combination_dims.sum

/-- The state constructed by `LinearSimilarity.__init__`: the stored token
list and the sizes of the two parameters it allocates
(`Parameter(torch.Tensor(combined_dim))` and `Parameter(torch.Tensor(1))`).
The parameter contents are uninitialized memory later mutated by training,
so only their sizes are modelled; the sizes never change after
construction. -/
structure LinearSimilarity where
  _combinations : List (List Char)
  weight_vector_dim : Nat
  bias_dim : Nat
  deriving DecidableEq, Repr

/-- Embedding of `LinearSimilarity.__init__` (with the activation dropped:
it is an arbitrary callable applied only in `forward`).  Splits the
`combination` string on commas, computes the combined dimension — the only
step that can raise — and allocates the weight vector with exactly that
size. -/
def LinearSimilarity.init (tensor_1_dim tensor_2_dim : Nat)
    (combination : List Char) : Except String LinearSimilarity := do
  let combinations := split_commas combination
  let combined_dim ← _get_combined_dim combinations tensor_1_dim tensor_2_dim
  pure { _combinations := combinations
         weight_vector_dim := combined_dim
         bias_dim := 1 }

/-- Evaluation of a single-character token, as the recursion sees operand
characters: `x` and `y` resolve to the corresponding tensor, anything else
fails the length-3 test and raises. -/
theorem get_combination_single (c : Char) (t1 t2 : Tensor) :
    _get_combination [c] t1 t2 =
      if c = 'x' then Except.ok t1
      else if c = 'y' then Except.ok t2
      else Except.error ("Invalid combination: " ++ String.mk [c]) := by
  rw [_get_combination]
  simp

/-- Dimension of a single-character token: `x` and `y` resolve to the
corresponding dimension, anything else raises. -/
theorem get_combination_dim_single (c : Char) (dx dy : Nat) :
    _get_combination_dim [c] dx dy =
      if c = 'x' then Except.ok dx
      else if c = 'y' then Except.ok dy
      else Except.error ("Invalid combination: " ++ String.mk [c]) := by
  rw [_get_combination_dim]
  simp

/-- Unfolding of value evaluation on a three-character token: resolve both
operand characters, then dispatch on the middle operator character. -/
theorem get_combination_three (a op b : Char) (t1 t2 : Tensor) :
    _get_combination [a, op, b] t1 t2 = (do
      let first_tensor ← _get_combination [a] t1 t2
      let second_tensor ← _get_combination [b] t1 t2
      if op = '*' then
        Except.ok (List.zipWith (fun u v => u * v) first_tensor second_tensor)
      else if op = '/' then
        Except.ok (List.zipWith (fun u v => u / v) first_tensor second_tensor)
      else if op = '+' then
        Except.ok (List.zipWith (fun u v => u + v) first_tensor second_tensor)
      else if op = '-' then
        Except.ok (List.zipWith (fun u v => u - v) first_tensor second_tensor)
      else Except.error ("Invalid operation: " ++ String.mk [op])) := by
  rw [_get_combination]
  simp

/-- Unfolding of dimension evaluation on a three-character token: resolve
both operand characters and compare their dimensions; the operator
character is used only in the error message, never validated. -/
theorem get_combination_dim_three (a op b : Char) (dx dy : Nat) :
    _get_combination_dim [a, op, b] dx dy = (do
      let first_tensor_dim ← _get_combination_dim [a] dx dy
      let second_tensor_dim ← _get_combination_dim [b] dx dy
      if first_tensor_dim ≠ second_tensor_dim then
        Except.error ("Tensor dims must match for operation \"" ++ String.mk [op] ++ "\"")
      else Except.ok first_tensor_dim) := by
  rw [_get_combination_dim]
  simp

/-- A token that is not `x`, not `y` and not three characters long makes
value evaluation raise `ConfigurationError`. -/
theorem get_combination_invalid (cs : List Char) (t1 t2 : Tensor)
    (hx : cs ≠ ['x']) (hy : cs ≠ ['y']) (h3 : cs.length ≠ 3) :
    _get_combination cs t1 t2 =
      Except.error ("Invalid combination: " ++ String.mk cs) := by
  rw [_get_combination]
  simp [hx, hy, h3]

/-- A token that is not `x`, not `y` and not three characters long makes
dimension evaluation raise `ConfigurationError`. -/
theorem get_combination_dim_invalid (cs : List Char) (dx dy : Nat)
    (hx : cs ≠ ['x']) (hy : cs ≠ ['y']) (h3 : cs.length ≠ 3) :
    _get_combination_dim cs dx dy =
      Except.error ("Invalid combination: " ++ String.mk cs) := by
  rw [_get_combination_dim]
  simp [hx, hy, h3]

/-- Inversion of a successful single-character dimension evaluation: the
character is `x` or `y` and the dimension the matching input dimension. -/
theorem get_combination_dim_single_ok {c : Char} {dx dy d : Nat}
    (h : _get_combination_dim [c] dx dy = Except.ok d) :
    (c = 'x' ∧ d = dx) ∨ (c = 'y' ∧ d = dy) := by
  rw [get_combination_dim_single] at h
  by_cases hx : c = 'x' <;> by_cases hy : c = 'y' <;>
    simp [hx, hy] at h <;> tauto

/-- Inversion of a successful single-character value evaluation: the
character is `x` or `y` and the value the matching input tensor. -/
theorem get_combination_single_ok {c : Char} {t1 t2 u : Tensor}
    (h : _get_combination [c] t1 t2 = Except.ok u) :
    (c = 'x' ∧ u = t1) ∨ (c = 'y' ∧ u = t2) := by
  rw [get_combination_single] at h
  by_cases hx : c = 'x' <;> by_cases hy : c = 'y' <;>
    simp [hx, hy] at h <;> tauto

/-- Paired-recursion length invariant at the token level: when the
dimension evaluation of a token returns `d` and its value evaluation on
tensors of the declared dimensions returns a tensor, that tensor has
length `d`. -/
theorem token_length_matches_dim {cs : List Char} {dx dy d : Nat}
    {t1 t2 u : Tensor} (h1 : t1.length = dx) (h2 : t2.length = dy)
    (hd : _get_combination_dim cs dx dy = Except.ok d)
    (hu : _get_combination cs t1 t2 = Except.ok u) :
    u.length = d := by
  rcases cs with _ | ⟨a, _ | ⟨b, _ | ⟨c, _ | ⟨e, rest⟩⟩⟩⟩
  · rw [get_combination_dim_invalid _ _ _ (by simp) (by simp) (by simp)] at hd
    cases hd
  · rcases get_combination_dim_single_ok hd with ⟨hc, hdv⟩ | ⟨hc, hdv⟩ <;>
      rcases get_combination_single_ok hu with ⟨hc2, huv⟩ | ⟨hc2, huv⟩ <;>
      subst hc2 <;> simp_all
  · rw [get_combination_dim_invalid _ _ _ (by simp) (by simp) (by simp)] at hd
    cases hd
  · rw [get_combination_dim_three] at hd
    rw [get_combination_three] at hu
    cases hda : _get_combination_dim [a] dx dy with
    | error e => rw [hda, error_bind] at hd; cases hd
    | ok d1 =>
      cases hdc : _get_combination_dim [c] dx dy with
      | error e => rw [hda, hdc, ok_bind, error_bind] at hd; cases hd
      | ok d2 =>
        rw [hda, hdc, ok_bind, ok_bind] at hd
        by_cases hdd : d1 = d2
        · subst hdd
          simp only [ne_eq, not_true_eq_false, if_false, ite_self] at hd
          injection hd with hd
          rcases get_combination_dim_single_ok hda with ⟨hc, hd1⟩ | ⟨hc, hd1⟩ <;>
            rcases get_combination_dim_single_ok hdc with ⟨hc2, hd2⟩ | ⟨hc2, hd2⟩ <;>
            subst hc <;> subst hc2 <;>
            simp only [get_combination_single, Char.reduceEq, reduceIte,
              ok_bind] at hu <;>
            split_ifs at hu <;>
            injection hu with hu <;> subst hu <;>
            simp only [List.length_zipWith, List.length_map,
              List.length_replicate, h1, h2, min_self] <;>
            omega
        · simp [hdd] at hd
  · rw [get_combination_dim_invalid _ _ _ (by simp) (by simp)
      (by simp only [List.length_cons]; omega)] at hd
    cases hd

/-- `pure` in the `Except` monad is the `ok` constructor. -/
theorem pure_eq_ok {α : Type} (a : α) :
    (pure a : Except String α) = Except.ok a := rfl

/-- The concatenation loop of `_combine_tensors`: when every remaining
token evaluates successfully, folding them onto an accumulator appends the
evaluated tensors in list order. -/
theorem foldl_concat_ok (rest : List (List Char)) (t1 t2 : Tensor)
    (acc : Tensor) (us : List Tensor)
    (h : rest.mapM (fun combination => _get_combination combination t1 t2)
      = Except.ok us) :
    (rest.foldlM (fun combined_tensor combination => do
        let to_concatenate ← _get_combination combination t1 t2
        pure (combined_tensor ++ to_concatenate)) acc : Except String Tensor)
      = Except.ok (acc ++ us.flatten) := by
  induction rest generalizing acc us with
  | nil =>
    rw [List.mapM_nil, pure_eq_ok] at h
    injection h with h
    subst h
    simp [List.foldlM_nil, pure_eq_ok]
  | cons c cs ih =>
    rw [List.mapM_cons] at h
    cases hc : _get_combination c t1 t2 with
    | error e => rw [hc, error_bind] at h; cases h
    | ok u =>
      rw [hc, ok_bind] at h
      cases hcs : cs.mapM (fun combination => _get_combination combination t1 t2) with
      | error e => rw [hcs, error_bind] at h; cases h
      | ok us2 =>
        rw [hcs, ok_bind, pure_eq_ok] at h
        injection h with h
        subst h
        rw [List.foldlM_cons, hc, ok_bind, pure_eq_ok, ok_bind,
          ih (acc ++ u) us2 hcs]
        simp

/-- Inversion of the concatenation loop: a successful fold means every
token evaluated, and the result is the accumulator followed by the
evaluated tensors in list order. -/
theorem foldl_concat_ok_inv (rest : List (List Char)) (t1 t2 : Tensor)
    (acc : Tensor) (u : Tensor)
    (h : (rest.foldlM (fun combined_tensor combination => do
        let to_concatenate ← _get_combination combination t1 t2
        pure (combined_tensor ++ to_concatenate)) acc : Except String Tensor)
      = Except.ok u) :
    ∃ us, rest.mapM (fun combination => _get_combination combination t1 t2)
        = Except.ok us ∧ u = acc ++ us.flatten := by
  induction rest generalizing acc with
  | nil =>
    rw [List.foldlM_nil, pure_eq_ok] at h
    injection h with h
    exact ⟨[], by rw [List.mapM_nil, pure_eq_ok], by simp [h]⟩
  | cons c cs ih =>
    rw [List.foldlM_cons] at h
    cases hc : _get_combination c t1 t2 with
    | error e => rw [hc, error_bind, error_bind] at h; cases h
    | ok v =>
      rw [hc, ok_bind, pure_eq_ok, ok_bind] at h
      rcases ih (acc ++ v) h with ⟨us, hus, hu⟩
      refine ⟨v :: us, ?_, ?_⟩
      · rw [List.mapM_cons, hc, ok_bind, hus, ok_bind, pure_eq_ok]
      · simp [hu]

/-- `_combine_tensors` on a non-empty token list, all of whose tokens
evaluate, returns the per-token tensors concatenated in list order. -/
theorem combine_tensors_eq_join (combinations : List (List Char))
    (t1 t2 : Tensor) (us : List Tensor) (hne : combinations ≠ [])
    (h : combinations.mapM
        (fun combination => _get_combination combination t1 t2)
      = Except.ok us) :
    _combine_tensors combinations t1 t2 = Except.ok us.flatten := by
  rcases combinations with _ | ⟨first, rest⟩
  · exact absurd rfl hne
  · rw [List.mapM_cons] at h
    cases hc : _get_combination first t1 t2 with
    | error e => rw [hc, error_bind] at h; cases h
    | ok u =>
      rw [hc, ok_bind] at h
      cases hcs : rest.mapM (fun combination => _get_combination combination t1 t2) with
      | error e => rw [hcs, error_bind] at h; cases h
      | ok us2 =>
        rw [hcs, ok_bind, pure_eq_ok] at h
        injection h with h
        subst h
        show (do
          let combined_tensor ← _get_combination first t1 t2
          rest.foldlM (fun combined_tensor combination => do
            let to_concatenate ← _get_combination combination t1 t2
            pure (combined_tensor ++ to_concatenate)) combined_tensor) = _
        rw [hc, ok_bind, foldl_concat_ok rest t1 t2 u us2 hcs]
        simp

/-- Inversion of a successful `_combine_tensors`: every token evaluated
and the result is their concatenation in list order. -/
theorem combine_tensors_ok_inv (combinations : List (List Char))
    (t1 t2 : Tensor) (u : Tensor)
    (h : _combine_tensors combinations t1 t2 = Except.ok u) :
    ∃ us, combinations.mapM
        (fun combination => _get_combination combination t1 t2)
      = Except.ok us ∧ u = us.flatten := by
  rcases combinations with _ | ⟨first, rest⟩
  · cases h
  · rw [show _combine_tensors (first :: rest) t1 t2 = (do
        let combined_tensor ← _get_combination first t1 t2
        rest.foldlM (fun combined_tensor combination => do
          let to_concatenate ← _get_combination combination t1 t2
          pure (combined_tensor ++ to_concatenate)) combined_tensor)
      from rfl] at h
    cases hc : _get_combination first t1 t2 with
    | error e => rw [hc, error_bind] at h; cases h
    | ok v =>
      rw [hc, ok_bind] at h
      rcases foldl_concat_ok_inv rest t1 t2 v u h with ⟨us, hus, hu⟩
      refine ⟨v :: us, ?_, ?_⟩
      · rw [List.mapM_cons, hc, ok_bind, hus, ok_bind, pure_eq_ok]
      · simp [hu]

/-- `_get_combined_dim` is the sum of the per-token dimension results, in
list order, whenever they all succeed. -/
theorem get_combined_dim_eq_sum (combinations : List (List Char))
    (dx dy : Nat) (ds : List Nat)
    (h : combinations.mapM
        (fun combination => _get_combination_dim combination dx dy)
      = Except.ok ds) :
    _get_combined_dim combinations dx dy = Except.ok ds.sum := by
  unfold _get_combined_dim
  rw [h, ok_bind, pure_eq_ok]

/-- Inversion of a successful `_get_combined_dim`: every token's dimension
evaluated and the result is their sum in list order. -/
theorem get_combined_dim_ok_inv (combinations : List (List Char))
    (dx dy : Nat) (n : Nat)
    (h : _get_combined_dim combinations dx dy = Except.ok n) :
    ∃ ds, combinations.mapM
        (fun combination => _get_combination_dim combination dx dy)
      = Except.ok ds ∧ n = ds.sum := by
  unfold _get_combined_dim at h
  cases hm : combinations.mapM
      (fun combination => _get_combination_dim combination dx dy) with
  | error e => rw [hm, error_bind] at h; cases h
  | ok ds =>
    rw [hm, ok_bind, pure_eq_ok] at h
    injection h with h
    exact ⟨ds, rfl, h.symm⟩

/-- Paired-recursion length invariant, token lists: when the dimension
pass and the value pass both succeed on the same token list, the evaluated
tensors have exactly the per-token dimensions, in list order. -/
theorem mapM_lengths {combs : List (List Char)} {dx dy : Nat}
    {ds : List Nat} {us : List Tensor} {t1 t2 : Tensor}
    (h1 : t1.length = dx) (h2 : t2.length = dy)
    (hd : combs.mapM (fun combination => _get_combination_dim combination dx dy)
      = Except.ok ds)
    (hv : combs.mapM (fun combination => _get_combination combination t1 t2)
      = Except.ok us) :
    us.map List.length = ds := by
  induction combs generalizing ds us with
  | nil =>
    rw [List.mapM_nil, pure_eq_ok] at hd hv
    injection hd with hd
    injection hv with hv
    subst hd
    subst hv
    rfl
  | cons c cs ih =>
    rw [List.mapM_cons] at hd hv
    cases hdc : _get_combination_dim c dx dy with
    | error e => rw [hdc, error_bind] at hd; cases hd
    | ok d =>
      cases hvc : _get_combination c t1 t2 with
      | error e => rw [hvc, error_bind] at hv; cases hv
      | ok u =>
        rw [hdc, ok_bind] at hd
        rw [hvc, ok_bind] at hv
        cases hds : cs.mapM (fun combination => _get_combination_dim combination dx dy) with
        | error e => rw [hds, error_bind] at hd; cases hd
        | ok ds2 =>
          cases hus : cs.mapM (fun combination => _get_combination combination t1 t2) with
          | error e => rw [hus, error_bind] at hv; cases hv
          | ok us2 =>
            rw [hds, ok_bind, pure_eq_ok] at hd
            rw [hus, ok_bind, pure_eq_ok] at hv
            injection hd with hd
            injection hv with hv
            subst hd
            subst hv
            rw [List.map_cons, ih hds hus,
              token_length_matches_dim h1 h2 hdc hvc]

/-- C1 counterexample: the claim says the dimension evaluation raises
`ConfigurationError` on the bad-operator token `"x%y"` even when the two
operand dimensions are equal, but with `dim_x = dim_y = 2` it returns the
common dimension `2` without raising: the operator character is never
validated in `_get_combination_dim`. -/
theorem C1_counterexample :
    _get_combination_dim "x%y".toList 2 2 = Except.ok 2 := by
  rw [show "x%y".toList = ['x', '%', 'y'] from rfl, get_combination_dim_three]
  simp [get_combination_dim_single, ok_bind]

/-- C1 (amended): for every 3-character token whose middle character is
not one of the four operators and whose operands are the literals with
equal dimensions, the value evaluation raises `ConfigurationError`, but
the dimension evaluation returns the common operand dimension without
raising. -/
theorem C1_bad_operator (op : Char) (d : Nat) (t1 t2 : Tensor)
    (hop : op ≠ '*' ∧ op ≠ '/' ∧ op ≠ '+' ∧ op ≠ '-') :
    _get_combination_dim ['x', op, 'y'] d d = Except.ok d ∧
    _get_combination ['x', op, 'y'] t1 t2 =
      Except.error ("Invalid operation: " ++ String.mk [op]) := by
  obtain ⟨h1, h2, h3, h4⟩ := hop
  constructor
  · rw [get_combination_dim_three]
    simp [get_combination_dim_single, ok_bind]
  · rw [get_combination_three]
    simp [get_combination_single, ok_bind, h1, h2, h3, h4]

/-- C1 witness: the amended statement at `op = '%'`, `d = 2`, concrete
tensors. -/
theorem C1_bad_operator_witness :
    _get_combination_dim ['x', '%', 'y'] 2 2 = Except.ok 2 ∧
    _get_combination ['x', '%', 'y'] [1, 2] [3, 4] =
      Except.error ("Invalid operation: " ++ String.mk ['%']) :=
  C1_bad_operator '%' 2 [1, 2] [3, 4] (by decide)

/-- C5: the literal token `x` evaluates to the first vector, the literal
token `y` to the second, each binary token applies its elementwise
operator to the resolved operands, and in particular the single-expression
combinations `["x*y"]` on `x=[2,3], y=[4,5]` and `["x-y"]` on
`x=[5,5], y=[2,3]` evaluate to `[8,15]` and `[3,2]`. -/
theorem C5_value_evaluation (t1 t2 : Tensor) :
    _get_combination "x".toList t1 t2 = Except.ok t1 ∧
    _get_combination "y".toList t1 t2 = Except.ok t2 ∧
    _get_combination "x*y".toList t1 t2 =
      Except.ok (List.zipWith (fun a b => a * b) t1 t2) ∧
    _get_combination "x/y".toList t1 t2 =
      Except.ok (List.zipWith (fun a b => a / b) t1 t2) ∧
    _get_combination "x+y".toList t1 t2 =
      Except.ok (List.zipWith (fun a b => a + b) t1 t2) ∧
    _get_combination "x-y".toList t1 t2 =
      Except.ok (List.zipWith (fun a b => a - b) t1 t2) ∧
    _combine_tensors ["x*y".toList] [2, 3] [4, 5] = Except.ok [8, 15] ∧
    _combine_tensors ["x-y".toList] [5, 5] [2, 3] = Except.ok [3, 2] := by
  refine ⟨?_, ?_, ?_, ?_, ?_, ?_, ?_, ?_⟩
  · rw [show "x".toList = ['x'] from rfl, get_combination_single]
    simp
  · rw [show "y".toList = ['y'] from rfl, get_combination_single]
    simp
  · rw [show "x*y".toList = ['x', '*', 'y'] from rfl, get_combination_three]
    simp [get_combination_single, ok_bind]
  · rw [show "x/y".toList = ['x', '/', 'y'] from rfl, get_combination_three]
    simp [get_combination_single, ok_bind]
  · rw [show "x+y".toList = ['x', '+', 'y'] from rfl, get_combination_three]
    simp [get_combination_single, ok_bind]
  · rw [show "x-y".toList = ['x', '-', 'y'] from rfl, get_combination_three]
    simp [get_combination_single, ok_bind]
  · show (do
      let combined_tensor ← _get_combination "x*y".toList [2, 3] [4, 5]
      ([] : List (List Char)).foldlM (fun combined_tensor combination => do
        let to_concatenate ← _get_combination combination [2, 3] [4, 5]
        pure (combined_tensor ++ to_concatenate)) combined_tensor) = _
    rw [show "x*y".toList = ['x', '*', 'y'] from rfl, get_combination_three]
    simp [get_combination_single, ok_bind, List.foldlM_nil, pure_eq_ok]
    norm_num
  · show (do
      let combined_tensor ← _get_combination "x-y".toList [5, 5] [2, 3]
      ([] : List (List Char)).foldlM (fun combined_tensor combination => do
        let to_concatenate ← _get_combination combination [5, 5] [2, 3]
        pure (combined_tensor ++ to_concatenate)) combined_tensor) = _
    rw [show "x-y".toList = ['x', '-', 'y'] from rfl, get_combination_three]
    simp [get_combination_single, ok_bind, List.foldlM_nil, pure_eq_ok]
    norm_num

/-- C6: for every binary token whose operands are the literals `x`/`y` and
whose operator is one of the four valid operators, the dimension
evaluation returns the common resolved operand dimension when the two
resolved dimensions agree and raises `ConfigurationError` when they
differ. -/
theorem C6_binary_dim (a op b : Char) (dx dy : Nat)
    (ha : a = 'x' ∨ a = 'y') (hb : b = 'x' ∨ b = 'y')
    (hop : op = '*' ∨ op = '/' ∨ op = '+' ∨ op = '-') :
    _get_combination_dim [a, op, b] dx dy =
      (if (if a = 'x' then dx else dy) = (if b = 'x' then dx else dy)
       then Except.ok (if a = 'x' then dx else dy)
       else Except.error ("Tensor dims must match for operation \""
         ++ String.mk [op] ++ "\"")) := by
  rw [get_combination_dim_three]
  rcases ha with h | h <;> rcases hb with h2 | h2 <;> subst h <;> subst h2 <;>
    simp only [get_combination_dim_single, Char.reduceEq, reduceIte,
      ok_bind, ne_eq, ite_not] <;>
    split <;> simp_all

/-- C6 witness: `"x*y"` with equal dims `7`, and with the differing dims
`2 ≠ 3`, instantiated from the theorem at concrete inputs. -/
theorem C6_binary_dim_witness :
    (_get_combination_dim ['x', '*', 'y'] 7 7 =
      (if (if ('x' : Char) = 'x' then 7 else 7)
          = (if ('y' : Char) = 'x' then 7 else 7)
       then Except.ok (if ('x' : Char) = 'x' then 7 else 7)
       else Except.error ("Tensor dims must match for operation \""
         ++ String.mk ['*'] ++ "\""))) ∧
    (_get_combination_dim ['x', '*', 'y'] 2 3 =
      (if (if ('x' : Char) = 'x' then 2 else 3)
          = (if ('y' : Char) = 'x' then 2 else 3)
       then Except.ok (if ('x' : Char) = 'x' then 2 else 3)
       else Except.error ("Tensor dims must match for operation \""
         ++ String.mk ['*'] ++ "\""))) :=
  ⟨C6_binary_dim 'x' '*' 'y' 7 7 (Or.inl rfl) (Or.inr rfl) (Or.inl rfl),
   C6_binary_dim 'x' '*' 'y' 2 3 (Or.inl rfl) (Or.inr rfl) (Or.inl rfl)⟩

/-- C8: a token that is neither the literal `x`, nor the literal `y`, nor
exactly 3 characters long makes both the dimension evaluation and the
value evaluation raise `ConfigurationError`. -/
theorem C8_malformed_token (cs : List Char) (dx dy : Nat) (t1 t2 : Tensor)
    (hx : cs ≠ ['x']) (hy : cs ≠ ['y']) (h3 : cs.length ≠ 3) :
    _get_combination_dim cs dx dy =
      Except.error ("Invalid combination: " ++ String.mk cs) ∧
    _get_combination cs t1 t2 =
      Except.error ("Invalid combination: " ++ String.mk cs) :=
  ⟨get_combination_dim_invalid cs dx dy hx hy h3,
   get_combination_invalid cs t1 t2 hx hy h3⟩

/-- C8 witness: the spec's examples `"z"` and (by a second instantiation)
`"xy"` in the statement for `"z"`, at concrete dimensions and tensors. -/
theorem C8_malformed_token_witness :
    _get_combination_dim "z".toList 1 2 =
      Except.error ("Invalid combination: " ++ String.mk "z".toList) ∧
    _get_combination "z".toList [1] [2, 3] =
      Except.error ("Invalid combination: " ++ String.mk "z".toList) :=
  C8_malformed_token "z".toList 1 2 [1] [2, 3]
    (by decide) (by decide) (by decide)

/-- C2 counterexample: on the token list `["x%y"]` with
`dim_x = dim_y = 1` the dimension pass succeeds and returns `1`, yet the
value pass on vectors of exactly those lengths produces no tensor at all —
it raises `ConfigurationError` on the unvalidated operator — so the tensor
whose trailing length the claim speaks of does not exist. -/
theorem C2_counterexample :
    _get_combined_dim [['x', '%', 'y']] 1 1 = Except.ok 1 ∧
    isErr (_combine_tensors [['x', '%', 'y']] [5] [7]) = true := by
  constructor
  · have hdim : _get_combination_dim ['x', '%', 'y'] 1 1 = Except.ok 1 := by
      rw [get_combination_dim_three]
      simp [get_combination_dim_single, ok_bind]
    have hm : List.mapM
        (fun combination => _get_combination_dim combination 1 1)
        [['x', '%', 'y']] = Except.ok [1] := by
      rw [List.mapM_cons, hdim, ok_bind, List.mapM_nil, pure_eq_ok,
        ok_bind, pure_eq_ok]
    have := get_combined_dim_eq_sum [['x', '%', 'y']] 1 1 [1] hm
    simpa using this
  · have hval : _get_combination ['x', '%', 'y'] [5] [7] =
        Except.error ("Invalid operation: " ++ String.mk ['%']) := by
      rw [get_combination_three]
      simp [get_combination_single, ok_bind]
    show isErr (do
      let combined_tensor ← _get_combination ['x', '%', 'y'] [5] [7]
      ([] : List (List Char)).foldlM (fun combined_tensor combination => do
        let to_concatenate ← _get_combination combination [5] [7]
        pure (combined_tensor ++ to_concatenate)) combined_tensor) = true
    rw [hval, error_bind]
    rfl

/-- C2 (amended): for every combination list on which the dimension pass
succeeds and every pair of input vectors whose trailing-axis lengths equal
`dim_x` and `dim_y`, IF the value pass also produces a tensor (which can
fail even then, when a token carries an invalid operator), that tensor's
trailing-axis length equals the integer returned by the dimension pass,
term by term in the same list order. -/
theorem C2_dim_value_paired (combs : List (List Char)) (dx dy n : Nat)
    (t1 t2 u : Tensor) (h1 : t1.length = dx) (h2 : t2.length = dy)
    (hd : _get_combined_dim combs dx dy = Except.ok n)
    (hv : _combine_tensors combs t1 t2 = Except.ok u) :
    u.length = n := by
  rcases get_combined_dim_ok_inv _ _ _ _ hd with ⟨ds, hds, hn⟩
  rcases combine_tensors_ok_inv _ _ _ _ hv with ⟨us, hus, hu⟩
  subst hn
  subst hu
  rw [List.length_flatten, mapM_lengths h1 h2 hds hus]

/-- C2 witness: the paired invariant at `["x","y"]`, `dim_x = 1`,
`dim_y = 2`, `x = [5]`, `y = [7,9]`: the combined tensor `[5,7,9]` has the
combined dimension `3`. -/
theorem C2_dim_value_paired_witness : ([5, 7, 9] : Tensor).length = 3 :=
  C2_dim_value_paired [['x'], ['y']] 1 2 3 [5] [7, 9] [5, 7, 9] rfl rfl
    (by have hm : List.mapM
          (fun combination => _get_combination_dim combination 1 2)
          [['x'], ['y']] = Except.ok [1, 2] := by
          rw [List.mapM_cons, get_combination_dim_single]
          simp only [Char.reduceEq, reduceIte, ok_bind]
          rw [List.mapM_cons, get_combination_dim_single]
          simp only [Char.reduceEq, reduceIte, ok_bind]
          rfl
        simpa using get_combined_dim_eq_sum [['x'], ['y']] 1 2 [1, 2] hm)
    (by have hm : List.mapM
          (fun combination => _get_combination combination [5] [7, 9])
          [['x'], ['y']] = Except.ok [[5], [7, 9]] := by
          rw [List.mapM_cons, get_combination_single]
          simp only [Char.reduceEq, reduceIte, ok_bind]
          rw [List.mapM_cons, get_combination_single]
          simp only [Char.reduceEq, reduceIte, ok_bind]
          rfl
        simpa using combine_tensors_eq_join [['x'], ['y']] [5] [7, 9]
          [[5], [7, 9]] (by simp) hm)

/-- C4: whenever every token's dimension evaluates, the dimension pass
returns the sum of the per-expression dimensions in list order; in
particular `["x","y"]` gives `dim_x + dim_y` for all dimensions, and
`["x","x*y","y"]` with `dim_x = dim_y = 3` gives `9`. -/
theorem C4_combined_dim_sum (dx dy : Nat) (combs : List (List Char))
    (ds : List Nat)
    (h : combs.mapM
        (fun combination => _get_combination_dim combination dx dy)
      = Except.ok ds) :
    _get_combined_dim combs dx dy = Except.ok ds.sum ∧
    _get_combined_dim ["x".toList, "y".toList] dx dy
      = Except.ok (dx + dy) ∧
    _get_combined_dim ["x".toList, "x*y".toList, "y".toList] 3 3
      = Except.ok 9 := by
  refine ⟨get_combined_dim_eq_sum combs dx dy ds h, ?_, ?_⟩
  · have hm : List.mapM
        (fun combination => _get_combination_dim combination dx dy)
        [['x'], ['y']] = Except.ok [dx, dy] := by
      rw [List.mapM_cons, get_combination_dim_single]
      simp only [Char.reduceEq, reduceIte, ok_bind]
      rw [List.mapM_cons, get_combination_dim_single]
      simp only [Char.reduceEq, reduceIte, ok_bind]
      rfl
    have := get_combined_dim_eq_sum [['x'], ['y']] dx dy [dx, dy] hm
    simpa using this
  · have hmid : _get_combination_dim ['x', '*', 'y'] 3 3 = Except.ok 3 := by
      rw [get_combination_dim_three]
      simp [get_combination_dim_single, ok_bind]
    have hm : List.mapM
        (fun combination => _get_combination_dim combination 3 3)
        [['x'], ['x', '*', 'y'], ['y']] = Except.ok [3, 3, 3] := by
      rw [List.mapM_cons, get_combination_dim_single]
      simp only [Char.reduceEq, reduceIte, ok_bind]
      rw [List.mapM_cons, hmid, ok_bind]
      rw [List.mapM_cons, get_combination_dim_single]
      simp only [Char.reduceEq, reduceIte, ok_bind]
      rfl
    have := get_combined_dim_eq_sum [['x'], ['x', '*', 'y'], ['y']] 3 3
      [3, 3, 3] hm
    simpa using this

/-- C4 witness: the general sum clause at the one-token list `["x"]` with
`dim_x = 1, dim_y = 2`. -/
theorem C4_combined_dim_sum_witness :
    _get_combined_dim [['x']] 1 2 = Except.ok ([1] : List Nat).sum ∧
    _get_combined_dim ["x".toList, "y".toList] 1 2 = Except.ok (1 + 2) ∧
    _get_combined_dim ["x".toList, "x*y".toList, "y".toList] 3 3
      = Except.ok 9 :=
  C4_combined_dim_sum 1 2 [['x']] [1]
    (by rw [List.mapM_cons, get_combination_dim_single]
        simp only [Char.reduceEq, reduceIte, ok_bind]
        rfl)

/-- C7: the value pass concatenates the per-expression tensors along the
trailing axis in exactly list order; with `x = [1]` and `y = [2,3]` (so
differing dims) the combinations `"x,y"` and `"y,x"` produce
differently-ordered concatenations. -/
theorem C7_concatenation_order (t1 t2 : Tensor) (combs : List (List Char))
    (us : List Tensor) (hne : combs ≠ [])
    (h : combs.mapM (fun combination => _get_combination combination t1 t2)
      = Except.ok us) :
    _combine_tensors combs t1 t2 = Except.ok us.flatten ∧
    _combine_tensors ["x".toList, "y".toList] t1 t2
      = Except.ok (t1 ++ t2) ∧
    _combine_tensors ["y".toList, "x".toList] t1 t2
      = Except.ok (t2 ++ t1) ∧
    _combine_tensors ["x".toList, "y".toList] [1] [2, 3] ≠
      _combine_tensors ["y".toList, "x".toList] [1] [2, 3] := by
  have key : ∀ u v : Tensor,
      _combine_tensors [['x'], ['y']] u v = Except.ok (u ++ v) ∧
      _combine_tensors [['y'], ['x']] u v = Except.ok (v ++ u) := by
    intro u v
    constructor
    · have hm : List.mapM
          (fun combination => _get_combination combination u v)
          [['x'], ['y']] = Except.ok [u, v] := by
        rw [List.mapM_cons, get_combination_single]
        simp only [Char.reduceEq, reduceIte, ok_bind]
        rw [List.mapM_cons, get_combination_single]
        simp only [Char.reduceEq, reduceIte, ok_bind]
        rfl
      have := combine_tensors_eq_join [['x'], ['y']] u v [u, v] (by simp) hm
      simpa using this
    · have hm : List.mapM
          (fun combination => _get_combination combination u v)
          [['y'], ['x']] = Except.ok [v, u] := by
        rw [List.mapM_cons, get_combination_single]
        simp only [Char.reduceEq, reduceIte, ok_bind]
        rw [List.mapM_cons, get_combination_single]
        simp only [Char.reduceEq, reduceIte, ok_bind]
        rfl
      have := combine_tensors_eq_join [['y'], ['x']] u v [v, u] (by simp) hm
      simpa using this
  refine ⟨combine_tensors_eq_join combs t1 t2 us hne h,
    (key t1 t2).1, (key t1 t2).2, ?_⟩
  rw [show ("x".toList : List Char) = ['x'] from rfl,
    show ("y".toList : List Char) = ['y'] from rfl,
    (key [1] [2, 3]).1, (key [1] [2, 3]).2]
  intro hcontra
  injection hcontra with hcontra
  have : (1 : ℚ) = 2 := by
    have := congrArg (fun l => l.headI) hcontra
    simpa using this
  norm_num at this

/-- C7 witness: the order clause at the one-token list `["x"]` with
`x = [3], y = [4]`. -/
theorem C7_concatenation_order_witness :
    _combine_tensors [['x']] [3] [4] = Except.ok ([[(3 : ℚ)]]).flatten ∧
    _combine_tensors ["x".toList, "y".toList] [3] [4]
      = Except.ok ([3] ++ [4]) ∧
    _combine_tensors ["y".toList, "x".toList] [3] [4]
      = Except.ok ([4] ++ [3]) ∧
    _combine_tensors ["x".toList, "y".toList] [1] [2, 3] ≠
      _combine_tensors ["y".toList, "x".toList] [1] [2, 3] :=
  C7_concatenation_order [3] [4] [['x']] [[3]] (by simp)
    (by rw [List.mapM_cons, get_combination_single]
        simp only [Char.reduceEq, reduceIte, ok_bind]
        rfl)

/-- Characterisation of `isErr` by the existence of an error message. -/
theorem isErr_iff {α : Type} {x : Except String α} :
    isErr x = true ↔ ∃ e, x = Except.error e := by
  cases x <;> simp [isErr]

/-- A failing token makes the whole per-token dimension pass fail:
`mapM` propagates the first error it meets. -/
theorem mapM_dim_error_of_mem {combs : List (List Char)} {dx dy : Nat}
    (c : List Char) (hmem : c ∈ combs)
    (he : isErr (_get_combination_dim c dx dy) = true) :
    isErr (combs.mapM
      (fun combination => _get_combination_dim combination dx dy)) = true := by
  induction combs with
  | nil => cases hmem
  | cons a as ih =>
    rw [List.mapM_cons]
    cases ha : _get_combination_dim a dx dy with
    | error e => rw [error_bind]; rfl
    | ok d =>
      rw [ok_bind]
      rcases List.mem_cons.mp hmem with rfl | hmem2
      · rw [ha] at he
        simp [isErr] at he
      · rcases isErr_iff.mp (ih hmem2) with ⟨e, he2⟩
        rw [he2, error_bind]
        rfl

/-- A failing per-token dimension pass makes `_get_combined_dim` fail. -/
theorem combined_dim_isErr {combs : List (List Char)} {dx dy : Nat}
    (h : isErr (combs.mapM
      (fun combination => _get_combination_dim combination dx dy)) = true) :
    isErr (_get_combined_dim combs dx dy) = true := by
  unfold _get_combined_dim
  rcases isErr_iff.mp h with ⟨e, he⟩
  rw [he, error_bind]
  rfl

/-- A failing combined-dimension computation makes construction fail:
`__init__` performs no other fallible step. -/
theorem init_isErr {dx dy : Nat} {comb : List Char}
    (h : isErr (_get_combined_dim (split_commas comb) dx dy) = true) :
    isErr (LinearSimilarity.init dx dy comb) = true := by
  simp only [LinearSimilarity.init]
  rcases isErr_iff.mp h with ⟨e, he⟩
  rw [he, error_bind]
  rfl

/-- A binary token over the literals with differing resolved operand
dimensions makes the dimension evaluation raise. -/
theorem dim_mismatch_error (a op b : Char) (dx dy : Nat)
    (ha : a = 'x' ∨ a = 'y') (hb : b = 'x' ∨ b = 'y')
    (hne : (if a = 'x' then dx else dy) ≠ (if b = 'x' then dx else dy)) :
    isErr (_get_combination_dim [a, op, b] dx dy) = true := by
  rw [get_combination_dim_three]
  rcases ha with h | h <;> rcases hb with h2 | h2 <;> subst h <;> subst h2 <;>
    simp_all [get_combination_dim_single, ok_bind, isErr]

/-- C3 counterexample: the claim includes "a token with an invalid
operator" among the conditions caught at construction time, but
constructing with combination `"x%y"` and equal dimensions `2, 2` succeeds
— the constructor's dimension pass never validates the operator, so the
error surfaces only on the first forward/evaluation call. -/
theorem C3_counterexample :
    LinearSimilarity.init 2 2 "x%y".toList =
      Except.ok { _combinations := [['x', '%', 'y']],
                  weight_vector_dim := 2, bias_dim := 1 } := by
  have hd : _get_combination_dim ['x', '%', 'y'] 2 2 = Except.ok 2 := by
    rw [get_combination_dim_three]
    simp [get_combination_dim_single, ok_bind]
  have hm : List.mapM
      (fun combination => _get_combination_dim combination 2 2)
      [['x', '%', 'y']] = Except.ok [2] := by
    rw [List.mapM_cons, hd]
    rfl
  have hcd := get_combined_dim_eq_sum [['x', '%', 'y']] 2 2 [2] hm
  simp only [LinearSimilarity.init]
  rw [show split_commas "x%y".toList = [['x', '%', 'y']] from rfl, hcd,
    ok_bind]
  rfl

/-- C3 (amended): constructing `LinearSimilarity` raises
`ConfigurationError` at construction time, before any forward/evaluation
call, whenever some comma-separated token is malformed (not `x`, not `y`,
not exactly 3 characters) or is a binary token over the literals whose
resolved operand dimensions differ; a token whose only flaw is an invalid
operator character is NOT caught at construction. -/
theorem C3_construction_errors (dx dy : Nat) (comb : List Char)
    (h : ∃ c ∈ split_commas comb,
        (c ≠ ['x'] ∧ c ≠ ['y'] ∧ c.length ≠ 3) ∨
        (∃ a op b, c = [a, op, b] ∧ (a = 'x' ∨ a = 'y') ∧
          (b = 'x' ∨ b = 'y') ∧
          (if a = 'x' then dx else dy) ≠ (if b = 'x' then dx else dy))) :
    isErr (LinearSimilarity.init dx dy comb) = true := by
  rcases h with ⟨c, hmem, hcase⟩
  apply init_isErr
  apply combined_dim_isErr
  apply mapM_dim_error_of_mem c hmem
  rcases hcase with ⟨hx, hy, h3⟩ | ⟨a, op, b, rfl, ha, hb, hne⟩
  · rw [get_combination_dim_invalid c dx dy hx hy h3]
    rfl
  · exact dim_mismatch_error a op b dx dy ha hb hne

/-- C3 witness: the 2-character token `"xy"` with dims `2, 3` makes
construction fail. -/
theorem C3_construction_errors_witness :
    isErr (LinearSimilarity.init 2 3 "xy".toList) = true :=
  C3_construction_errors 2 3 "xy".toList
    ⟨['x', 'y'], by decide, Or.inl (by decide)⟩

/-- C9: every successful construction sizes the learned weight vector as
exactly the sum of the per-token dimensions of the stored combination
list, in list order; the structure's fields are immutable, so the equality
holds for the lifetime of the object. -/
theorem C9_weight_vector_dim (dx dy : Nat) (comb : List Char)
    (ls : LinearSimilarity)
    (h : LinearSimilarity.init dx dy comb = Except.ok ls) :
    ∃ ds, ls._combinations.mapM
        (fun combination => _get_combination_dim combination dx dy)
      = Except.ok ds ∧ ls.weight_vector_dim = ds.sum := by
  simp only [LinearSimilarity.init] at h
  cases hm : _get_combined_dim (split_commas comb) dx dy with
  | error e => rw [hm, error_bind] at h; cases h
  | ok n =>
    rw [hm, ok_bind, pure_eq_ok] at h
    injection h with h
    rcases get_combined_dim_ok_inv _ _ _ _ hm with ⟨ds, hds, hn⟩
    subst h
    exact ⟨ds, hds, hn⟩

/-- C9 witness: constructing with `"x,y"` and dims `2, 3` stores the token
list `[x, y]` and a weight vector of size `5 = 2 + 3`. -/
theorem C9_weight_vector_dim_witness :
    ∃ ds, (LinearSimilarity.mk [['x'], ['y']] 5 1)._combinations.mapM
        (fun combination => _get_combination_dim combination 2 3)
      = Except.ok ds ∧
      (LinearSimilarity.mk [['x'], ['y']] 5 1).weight_vector_dim = ds.sum :=
  C9_weight_vector_dim 2 3 "x,y".toList
    (LinearSimilarity.mk [['x'], ['y']] 5 1)
    (by
      have hm : List.mapM
          (fun combination => _get_combination_dim combination 2 3)
          [['x'], ['y']] = Except.ok [2, 3] := by
        rw [List.mapM_cons, get_combination_dim_single]
        simp only [Char.reduceEq, reduceIte, ok_bind]
        rw [List.mapM_cons, get_combination_dim_single]
        simp only [Char.reduceEq, reduceIte, ok_bind]
        rfl
      have hcd := get_combined_dim_eq_sum [['x'], ['y']] 2 3 [2, 3] hm
      simp only [LinearSimilarity.init]
      rw [show split_commas "x,y".toList = [['x'], ['y']] from rfl, hcd,
        ok_bind]
      rfl)

/-- C10: splitting the empty combination string on commas yields the
single empty token, which is neither `x`, nor `y`, nor 3 characters, so
construction raises `ConfigurationError`; the same happens for any
combination string with an empty segment, e.g. `"x,,y"`, or a trailing
comma, e.g. `"x,"`. -/
theorem C10_empty_segment (dx dy : Nat) :
    split_commas "".toList = [[]] ∧
    isErr (LinearSimilarity.init dx dy "".toList) = true ∧
    isErr (LinearSimilarity.init dx dy "x,,y".toList) = true ∧
    isErr (LinearSimilarity.init dx dy "x,".toList) = true := by
  refine ⟨rfl, ?_, ?_, ?_⟩
  · apply init_isErr
    apply combined_dim_isErr
    apply mapM_dim_error_of_mem [] (by decide)
    rw [get_combination_dim_invalid [] dx dy (by decide) (by decide)
      (by decide)]
    rfl
  · apply init_isErr
    apply combined_dim_isErr
    apply mapM_dim_error_of_mem [] (by decide)
    rw [get_combination_dim_invalid [] dx dy (by decide) (by decide)
      (by decide)]
    rfl
  · apply init_isErr
    apply combined_dim_isErr
    apply mapM_dim_error_of_mem [] (by decide)
    rw [get_combination_dim_invalid [] dx dy (by decide) (by decide)
      (by decide)]
    rfl

end LinearSim


